import Mathlib

/-!
Verification of the standardized-index computation engine of the
Climate_Indices repository (function calculate_spei_custom in SPEI_cdb.py).

The engine takes a monthly water-balance series, forms rolling sums over a
given timescale (pandas rolling with min_periods equal to the window), and at
every eligible position fits a Pearson Type III distribution to the expanding
sample of defined rolling sums, maps the current rolling sum through the
fitted cumulative distribution and then through the inverse standard-normal
cumulative distribution.

Modelling conventions:
* a missing or NaN entry of the input series is `none`; defined entries are
  exact rationals,
* output values live in `EFloat`, which distinguishes finite values, the two
  infinities and NaN, so that the behaviour of the inverse-normal transform at
  probability 0 and 1 is representable,
* the numerical interiors of the scipy routines (the Pearson III parameter
  estimation, the Pearson III cdf on finite arguments, and the inverse normal
  cdf on probabilities strictly between 0 and 1) are abstracted as function
  parameters; only their structurally fixed behaviour (NaN propagation, the
  endpoint behaviour of norm.ppf) is modelled concretely.
-/

namespace ClimateIndices

/-- A floating point result of the script: a finite value (modelled exactly as
a rational), one of the two infinities, or NaN. -/
inductive EFloat where
  | val (q : ℚ)
  | posInf
  | negInf
  | nan
deriving DecidableEq

/-- One entry of the pandas rolling sum
`data["WaterBalance"].rolling(timescale, min_periods=timescale).sum()`:
the window at position `i` consists of the (at most `T`) entries at positions
`i-T+1 .. i`; the sum is produced when the number of non-NaN observations in
the window reaches `min_periods = T`, and is NaN otherwise. -/
def rollingEntry (wb : List (Option ℚ)) (T : ℕ) (i : ℕ) : Option ℚ :=
  let window := (wb.take (i + 1)).drop (i + 1 - T)
  let obs := window.reduceOption
  if T ≤ obs.length then some obs.sum else none

/-- The full rolling-sum series; same length as the input series. -/
def rollingSum (wb : List (Option ℚ)) (T : ℕ) : List (Option ℚ) :=
  (List.range wb.length).map (rollingEntry wb T)

/-- scipy `pearson3.cdf(x, *params)` where `x` may be NaN: a NaN argument
propagates to a NaN result; on a finite argument the numeric value is given by
the abstract cdf parameter. -/
def pearson3Cdf {P : Type} (cdf : ℚ → P → EFloat) : Option ℚ → P → EFloat
  | none, _ => .nan
  | some q, p => cdf q p

/-- scipy `norm.ppf`: NaN and out-of-domain arguments give NaN, probability 0
gives negative infinity, probability 1 gives positive infinity, and a
probability strictly between 0 and 1 gives the finite quantile computed by the
abstract interior function `ppfI`. -/
def normPpf (ppfI : ℚ → ℚ) : EFloat → EFloat
  | .val q =>
      if q < 0 then .nan
      else if q = 0 then .negInf
      else if q < 1 then .val (ppfI q)
      else if q = 1 then .posInf
      else .nan
  | _ => .nan

/-- The body of the loop of `calculate_spei_custom` at position `i`: positions
before `timescale - 1` receive NaN; at the remaining positions the expanding
sample of defined rolling sums up to and including `i` (pandas `dropna`,
modelled by `reduceOption`) is fitted, and the rolling sum at `i` is mapped
through the fitted cdf and the inverse normal cdf. -/
def speiEntry {P : Type} (fit : List ℚ → P) (cdf : ℚ → P → EFloat)
    (ppfI : ℚ → ℚ) (wb : List (Option ℚ)) (timescale : ℤ) (i : ℕ) : EFloat :=
  if (i : ℤ) < timescale - 1 then .nan
  else
    let rolling := rollingSum wb timescale.toNat
    let sample := (rolling.take (i + 1)).reduceOption
    let params := fit sample
    let standardized := pearson3Cdf cdf (rolling.getD i none) params
    normPpf ppfI standardized

/-- The list built by the loop of `calculate_spei_custom`, one entry per
position of the input series. -/
def speiSeries {P : Type} (fit : List ℚ → P) (cdf : ℚ → P → EFloat)
    (ppfI : ℚ → ℚ) (wb : List (Option ℚ)) (timescale : ℤ) : List EFloat :=
  (List.range wb.length).map (speiEntry fit cdf ppfI wb timescale)

/-- The function `calculate_spei_custom` of SPEI_cdb.py.  Constructing the pandas rolling
window validates the parameters first: a negative window or `min_periods`
raises a ValueError before any sum is computed (window 0 is accepted by
pandas, with every window empty).  On success the function returns the series
of standardized values.  This embedding totalizes the abstract estimator: the
exception scipy `pearson3.fit` raises on an empty expanding sample is kept by
the refinement `calculate_spei_custom_exc` below, which agrees with this
function on every input where no eligible position has an empty sample
(`calculate_spei_custom_exc_eq`). -/
def calculate_spei_custom {P : Type} (fit : List ℚ → P) (cdf : ℚ → P → EFloat)
    (ppfI : ℚ → ℚ) (wb : List (Option ℚ)) (timescale : ℤ) :
    Except String (List EFloat) :=
  if timescale < 0 then .error "min_periods must be >= 0"
  else .ok (speiSeries fit cdf ppfI wb timescale)

/-- A pandas DataFrame as used by the script: named numeric columns and a row
index. -/
structure DataFrame where
  cols : List (String × List (Option ℚ))
  index : List ℕ
deriving DecidableEq

/-- Column lookup `data[name]`. -/
def getColumn (df : DataFrame) (name : String) : List (Option ℚ) :=
  ((df.cols.find? (fun c => c.1 == name)).map (fun c => c.2)).getD []

/-- The pandas Series returned by `calculate_spei_custom`: the computed values
carrying the index of the input frame (`pd.Series(spei_values,
index=data.index)`). -/
structure PSeries where
  values : List EFloat
  index : List ℕ
deriving DecidableEq

/-- Stateful embedding of `calculate_spei_custom` at the DataFrame level: the
function reads `data["WaterBalance"]` and `data.index` and performs no
assignment to the frame, so the post-state of the frame is threaded through
unchanged alongside the result. -/
def calculate_spei_custom_df {P : Type} (fit : List ℚ → P)
    (cdf : ℚ → P → EFloat) (ppfI : ℚ → ℚ) (df : DataFrame) (timescale : ℤ) :
    Except String PSeries × DataFrame :=
  match calculate_spei_custom fit cdf ppfI (getColumn df "WaterBalance") timescale with
  | .error e => (.error e, df)
  | .ok vals => (.ok ⟨vals, df.index⟩, df)

/-! Helper lemmas -/

lemma getD_range_map {α : Type} (f : ℕ → α) {n i : ℕ} (h : i < n) (d : α) :
    ((List.range n).map f).getD i d = f i := by
  rw [List.getD_eq_getElem?_getD, List.getElem?_map, List.getElem?_range h]
  rfl

lemma length_rollingSum (wb : List (Option ℚ)) (T : ℕ) :
    (rollingSum wb T).length = wb.length := by
  simp [rollingSum]

lemma rollingSum_getD (wb : List (Option ℚ)) (T : ℕ) {i : ℕ} (h : i < wb.length) :
    (rollingSum wb T).getD i none = rollingEntry wb T i :=
  getD_range_map _ h _

lemma length_speiSeries {P : Type} (fit : List ℚ → P) (cdf : ℚ → P → EFloat)
    (ppfI : ℚ → ℚ) (wb : List (Option ℚ)) (timescale : ℤ) :
    (speiSeries fit cdf ppfI wb timescale).length = wb.length := by
  simp [speiSeries]

lemma speiSeries_getD {P : Type} (fit : List ℚ → P) (cdf : ℚ → P → EFloat)
    (ppfI : ℚ → ℚ) (wb : List (Option ℚ)) (timescale : ℤ) {i : ℕ}
    (h : i < wb.length) :
    (speiSeries fit cdf ppfI wb timescale).getD i .nan =
      speiEntry fit cdf ppfI wb timescale i :=
  getD_range_map _ h _

lemma window_length {wb : List (Option ℚ)} {T i : ℕ} (hi : i < wb.length) :
    ((wb.take (i + 1)).drop (i + 1 - T)).length = min T (i + 1) := by
  rw [List.length_drop, List.length_take]
  omega

lemma window_getElem {wb : List (Option ℚ)} {T i m : ℕ} (hm : m < min T (i + 1)) :
    ((wb.take (i + 1)).drop (i + 1 - T))[m]? = wb[(i + 1 - T) + m]? := by
  rw [List.getElem?_drop, List.getElem?_take, if_pos (by omega)]

lemma reduceOption_map_some {α : Type} :
    ∀ l : List (Option α), (∀ x ∈ l, x.isSome = true) → l.reduceOption.map some = l := by
  intro l
  induction l with
  | nil => intro _; rfl
  | cons x xs ih =>
      intro h
      cases x with
      | none => exact absurd (h none (List.mem_cons_self _ _)) (by simp)
      | some a =>
          rw [List.reduceOption_cons_of_some, List.map_cons,
            ih (fun y hy => h y (List.mem_cons_of_mem _ hy))]

/-- Characterization of definedness of a rolling-sum entry: the window must
span `T` real positions and every constituent value must be defined. -/
lemma rollingEntry_isSome_iff {wb : List (Option ℚ)} {T i : ℕ} (hi : i < wb.length) :
    (rollingEntry wb T i).isSome = true ↔
      (T ≤ i + 1 ∧ ∀ j : ℕ, i + 1 - T ≤ j → j ≤ i → ((wb.getD j none).isSome = true)) := by
  have hwl : ((wb.take (i + 1)).drop (i + 1 - T)).length = min T (i + 1) :=
    window_length hi
  constructor
  · intro h
    rw [rollingEntry] at h
    by_cases hobs : T ≤ ((wb.take (i + 1)).drop (i + 1 - T)).reduceOption.length
    · have hle : ((wb.take (i + 1)).drop (i + 1 - T)).reduceOption.length ≤
          min T (i + 1) := hwl ▸ List.reduceOption_length_le _
      have hTi : T ≤ i + 1 := by omega
      refine ⟨hTi, ?_⟩
      have heq : ((wb.take (i + 1)).drop (i + 1 - T)).reduceOption.length =
          ((wb.take (i + 1)).drop (i + 1 - T)).length := by omega
      have hall := List.reduceOption_length_eq_iff.mp heq
      intro j hj1 hj2
      have hm : j - (i + 1 - T) < min T (i + 1) := by omega
      have hjw : ((wb.take (i + 1)).drop (i + 1 - T))[j - (i + 1 - T)]? = wb[j]? := by
        rw [window_getElem hm]
        congr 1
        omega
      have hjlt : j < wb.length := by omega
      rw [List.getElem?_eq_getElem hjlt] at hjw
      have hmem : wb[j] ∈ (wb.take (i + 1)).drop (i + 1 - T) :=
        List.mem_iff_getElem?.mpr ⟨j - (i + 1 - T), hjw⟩
      have := hall _ hmem
      rw [List.getD_eq_getElem _ _ hjlt]
      exact this
    · simp only [if_neg hobs] at h
      simp at h
  · rintro ⟨hTi, hall⟩
    rw [rollingEntry]
    have hwin : ∀ x ∈ (wb.take (i + 1)).drop (i + 1 - T), x.isSome = true := by
      intro x hx
      obtain ⟨m, hm⟩ := List.mem_iff_getElem?.mp hx
      have hmlt : m < min T (i + 1) := by
        obtain ⟨hlen, -⟩ := List.getElem?_eq_some.mp hm
        have hwl := @window_length wb T i hi
        omega
      rw [window_getElem hmlt] at hm
      have hjle : i + 1 - T + m ≤ i := by omega
      have hjlt : i + 1 - T + m < wb.length := by omega
      rw [List.getElem?_eq_getElem hjlt] at hm
      have := hall (i + 1 - T + m) (by omega) hjle
      rw [List.getD_eq_getElem _ _ hjlt] at this
      rw [Option.some_inj.mp hm] at this
      exact this
    have heq := List.reduceOption_length_eq_iff.mpr hwin
    rw [if_pos (by omega)]
    rfl

/-- When a rolling-sum entry is defined it is the sum of exactly the `T`
trailing defined values. -/
lemma rollingEntry_eq_some {wb : List (Option ℚ)} {T i : ℕ} {s : ℚ}
    (hi : i < wb.length) (h : rollingEntry wb T i = some s) :
    ∃ vs : List ℚ, (wb.take (i + 1)).drop (i + 1 - T) = vs.map some ∧
      vs.length = T ∧ s = vs.sum := by
  have hsome : (rollingEntry wb T i).isSome = true := by rw [h]; rfl
  have hchar := (rollingEntry_isSome_iff hi).mp hsome
  rw [rollingEntry] at h
  by_cases hobs : T ≤ ((wb.take (i + 1)).drop (i + 1 - T)).reduceOption.length
  · rw [if_pos hobs] at h
    refine ⟨((wb.take (i + 1)).drop (i + 1 - T)).reduceOption, ?_, ?_, ?_⟩
    · refine (reduceOption_map_some _ ?_).symm
      intro x hx
      obtain ⟨m, hm⟩ := List.mem_iff_getElem?.mp hx
      have hmlt : m < min T (i + 1) := by
        obtain ⟨hlen, -⟩ := List.getElem?_eq_some.mp hm
        have hwl := @window_length wb T i hi
        omega
      rw [window_getElem hmlt] at hm
      have hjle : i + 1 - T + m ≤ i := by omega
      have hjlt : i + 1 - T + m < wb.length := by omega
      rw [List.getElem?_eq_getElem hjlt] at hm
      have := hchar.2 (i + 1 - T + m) (by omega) hjle
      rw [List.getD_eq_getElem _ _ hjlt] at this
      rw [Option.some_inj.mp hm] at this
      exact this
    · have hle : ((wb.take (i + 1)).drop (i + 1 - T)).reduceOption.length ≤
          min T (i + 1) := (window_length hi) ▸ List.reduceOption_length_le _
      omega
    · exact (Option.some_inj.mp h).symm
  · rw [if_neg hobs] at h
    exact absurd h (by simp)

lemma reduceOption_eq_nil {α : Type} (l : List (Option α))
    (h : ∀ x ∈ l, x = none) : l.reduceOption = [] := by
  show List.filterMap id l = []
  rw [List.filterMap_eq_nil_iff]
  simpa using h

/-! Concrete stand-ins for the abstract scipy routines, used to evaluate
the engine on concrete inputs. -/

/-- Trivial concrete parameter estimator. -/
def unitFit : List ℚ → Unit := fun _ => ()

/-- Concrete cdf stand-in returning probability one half everywhere. -/
def halfCdf : ℚ → Unit → EFloat := fun _ _ => .val (1 / 2)

/-- Concrete cdf stand-in returning probability zero everywhere. -/
def zeroCdf : ℚ → Unit → EFloat := fun _ _ => .val 0

/-- Concrete cdf stand-in that fails numerically everywhere (NaN result). -/
def nanCdf : ℚ → Unit → EFloat := fun _ _ => .nan

/-! Claim theorems -/

/-- Claim C2: for every water-balance series, positive timescale and position,
the rolling sum at a position is defined iff all of the timescale constituent
values at positions `i - timescale + 1 .. i` are defined, and when defined it
equals the sum of exactly those trailing timescale values (no partial sums, no
zero-fill). -/
theorem rolling_sum_window_char (wb : List (Option ℚ)) (T : ℕ) (hT : 1 ≤ T)
    {i : ℕ} (hi : i < wb.length) :
    (((rollingSum wb T).getD i none).isSome = true ↔
      (T ≤ i + 1 ∧ ∀ j : ℕ, i + 1 - T ≤ j → j ≤ i →
        ((wb.getD j none).isSome = true))) ∧
    (∀ s : ℚ, (rollingSum wb T).getD i none = some s →
      ∃ vs : List ℚ, (wb.take (i + 1)).drop (i + 1 - T) = vs.map some ∧
        vs.length = T ∧ s = vs.sum) := by
  rw [rollingSum_getD wb T hi]
  exact ⟨rollingEntry_isSome_iff hi, fun s h => rollingEntry_eq_some hi h⟩

/-- Witness for C2 at the concrete series `[1, 2]` with timescale 2 and
position 1. -/
theorem rolling_sum_window_char_witness :
    (((rollingSum [some (1 : ℚ), some 2] 2).getD 1 none).isSome = true ↔
      (2 ≤ 1 + 1 ∧ ∀ j : ℕ, 1 + 1 - 2 ≤ j → j ≤ 1 →
        (([some (1 : ℚ), some 2].getD j none).isSome = true))) ∧
    (∀ s : ℚ, (rollingSum [some (1 : ℚ), some 2] 2).getD 1 none = some s →
      ∃ vs : List ℚ, ([some (1 : ℚ), some 2].take (1 + 1)).drop (1 + 1 - 2) =
        vs.map some ∧ vs.length = 2 ∧ s = vs.sum) :=
  rolling_sum_window_char [some 1, some 2] 2 (by norm_num) (by norm_num)

/-- Claim C1: at every eligible position the produced index value is the
inverse standard-normal cdf of the Pearson III cdf of the rolling sum, with
the parameters fitted to the sample of all defined rolling sums at positions
`0 .. i` inclusive (undefined entries excluded from the sample); at the first
eligible position the fit sample is the single rolling-sum value there. -/
theorem spei_index_formula {P : Type} (fit : List ℚ → P) (cdf : ℚ → P → EFloat)
    (ppfI : ℚ → ℚ) (wb : List (Option ℚ)) (timescale : ℤ) (hT : 1 ≤ timescale)
    {i : ℕ} (hi : i < wb.length) (hel : timescale - 1 ≤ (i : ℤ)) :
    (∃ l, calculate_spei_custom fit cdf ppfI wb timescale = .ok l ∧
      l.getD i .nan =
        normPpf ppfI (pearson3Cdf cdf ((rollingSum wb timescale.toNat).getD i none)
          (fit (((rollingSum wb timescale.toNat).take (i + 1)).reduceOption)))) ∧
    ((i : ℤ) = timescale - 1 →
      ∀ v : ℚ, (rollingSum wb timescale.toNat).getD i none = some v →
        ((rollingSum wb timescale.toNat).take (i + 1)).reduceOption = [v]) := by
  constructor
  · refine ⟨speiSeries fit cdf ppfI wb timescale, ?_, ?_⟩
    · rw [calculate_spei_custom, if_neg (by omega)]
    · rw [speiSeries_getD fit cdf ppfI wb timescale hi, speiEntry,
        if_neg (not_lt.mpr hel)]
  · intro hfirst v hv
    have hiT : i + 1 = timescale.toNat := by omega
    have htake : (rollingSum wb timescale.toNat).take (i + 1) =
        (List.range (i + 1)).map (rollingEntry wb timescale.toNat) := by
      have hmin : (i + 1) ⊓ wb.length = i + 1 := by omega
      rw [rollingSum, ← List.map_take, List.take_range, hmin]
    have hnone : ∀ j : ℕ, j < i → rollingEntry wb timescale.toNat j = none := by
      intro j hj
      by_contra hne
      have hsome : (rollingEntry wb timescale.toNat j).isSome = true := by
        cases hj2 : rollingEntry wb timescale.toNat j with
        | none => exact absurd hj2 hne
        | some a => rfl
      have := ((rollingEntry_isSome_iff (lt_trans hj hi)).mp hsome).1
      omega
    rw [htake, List.range_succ, List.map_append, List.reduceOption_append]
    have h1 : ((List.range i).map (rollingEntry wb timescale.toNat)).reduceOption = [] := by
      apply reduceOption_eq_nil
      intro x hx
      obtain ⟨j, hj, hfx⟩ := List.mem_map.mp hx
      rw [← hfx]
      exact hnone j (List.mem_range.mp hj)
    have h2 : rollingEntry wb timescale.toNat i = some v := by
      rw [← rollingSum_getD wb timescale.toNat hi]
      exact hv
    rw [h1, List.map_cons, List.map_nil, h2]
    rfl

/-- Witness for C1: fully-defined three-entry series with timescale 3 at the
first eligible position 2; the fit sample is the single rolling sum there. -/
theorem spei_index_formula_witness :
    (∃ l, calculate_spei_custom unitFit halfCdf id [some (1 : ℚ), some 2, some 3] 3 = .ok l ∧
      l.getD 2 .nan =
        normPpf id (pearson3Cdf halfCdf
          ((rollingSum [some (1 : ℚ), some 2, some 3] (3 : ℤ).toNat).getD 2 none)
          (unitFit (((rollingSum [some (1 : ℚ), some 2, some 3] (3 : ℤ).toNat).take
            (2 + 1)).reduceOption)))) ∧
    (((2 : ℕ) : ℤ) = 3 - 1 →
      ∀ v : ℚ, (rollingSum [some (1 : ℚ), some 2, some 3] (3 : ℤ).toNat).getD 2 none = some v →
        ((rollingSum [some (1 : ℚ), some 2, some 3] (3 : ℤ).toNat).take
          (2 + 1)).reduceOption = [v]) :=
  spei_index_formula unitFit halfCdf id [some 1, some 2, some 3] 3
    (by norm_num) (by norm_num) (by norm_num)

/-- Claim C8: determinism — two invocations with identical water-balance
series and identical timescale yield identical output series; the engine is a
pure function with no hidden state. -/
theorem spei_deterministic {P : Type} (fit : List ℚ → P) (cdf : ℚ → P → EFloat)
    (ppfI : ℚ → ℚ) (wb wb2 : List (Option ℚ)) (t t2 : ℤ)
    (hwb : wb = wb2) (ht : t = t2) :
    calculate_spei_custom fit cdf ppfI wb t =
      calculate_spei_custom fit cdf ppfI wb2 t2 := by
  rw [hwb, ht]

/-- Witness for C8 at a concrete series and timescale. -/
theorem spei_deterministic_witness :
    calculate_spei_custom unitFit halfCdf id [some (1 : ℚ), some 2] 3 =
      calculate_spei_custom unitFit halfCdf id [some (1 : ℚ), some 2] 3 :=
  spei_deterministic unitFit halfCdf id [some 1, some 2] [some 1, some 2] 3 3 rfl rfl

/-- Claim C10: the call does not mutate its input frame: afterwards the
WaterBalance column, every other column and the index are unchanged, and the
result is returned as a separate series value. -/
theorem spei_no_mutation {P : Type} (fit : List ℚ → P) (cdf : ℚ → P → EFloat)
    (ppfI : ℚ → ℚ) (df : DataFrame) (timescale : ℤ) :
    (calculate_spei_custom_df fit cdf ppfI df timescale).2 = df ∧
    (calculate_spei_custom_df fit cdf ppfI df timescale).2.cols = df.cols ∧
    (calculate_spei_custom_df fit cdf ppfI df timescale).2.index = df.index ∧
    getColumn (calculate_spei_custom_df fit cdf ppfI df timescale).2 "WaterBalance" =
      getColumn df "WaterBalance" := by
  rw [calculate_spei_custom_df]
  cases calculate_spei_custom fit cdf ppfI (getColumn df "WaterBalance") timescale <;>
    exact ⟨rfl, rfl, rfl, rfl⟩

/-- If the whole series holds fewer than `T` defined values, no rolling window
can reach `min_periods` and every rolling entry is NaN. -/
lemma rollingEntry_none_of_few {wb : List (Option ℚ)} {T : ℕ}
    (hdef : wb.reduceOption.length < T) (j : ℕ) : rollingEntry wb T j = none := by
  rw [rollingEntry]
  have hsub : ((wb.take (j + 1)).drop (j + 1 - T)).Sublist wb :=
    (List.drop_sublist _ _).trans (List.take_sublist _ _)
  have hlen : ((wb.take (j + 1)).drop (j + 1 - T)).reduceOption.length ≤
      wb.reduceOption.length :=
    (hsub.filterMap id).length_le
  rw [if_neg (by omega)]

/-- Claim C3 (amended): a negative timescale is rejected by the pandas
rolling-window parameter validation before any computation begins, while a
zero timescale is accepted and the call produces a full-length output
series. -/
theorem spei_invalid_timescale {P : Type} (fit : List ℚ → P)
    (cdf : ℚ → P → EFloat) (ppfI : ℚ → ℚ) (wb : List (Option ℚ)) (timescale : ℤ) :
    (timescale < 0 →
      calculate_spei_custom fit cdf ppfI wb timescale =
        .error "min_periods must be >= 0") ∧
    (timescale = 0 →
      ∃ l, calculate_spei_custom fit cdf ppfI wb timescale = .ok l ∧
        l.length = wb.length) := by
  constructor
  · intro h
    rw [calculate_spei_custom, if_pos h]
  · intro h
    exact ⟨speiSeries fit cdf ppfI wb timescale,
      by rw [calculate_spei_custom, if_neg (by omega)],
      length_speiSeries fit cdf ppfI wb timescale⟩

/-- Witness for the amended C3: at timescale `-1` the call errors out, and at
timescale `0` it succeeds. -/
theorem spei_invalid_timescale_witness :
    calculate_spei_custom unitFit halfCdf id [some (1 : ℚ)] (-1) =
      .error "min_periods must be >= 0" :=
  (spei_invalid_timescale unitFit halfCdf id [some 1] (-1)).1 (by norm_num)

/-- Counterexample to C3 as stated: timescale `0` is non-positive, yet the
call does not fail — it produces an output series. -/
theorem spei_zero_timescale_counterexample :
    calculate_spei_custom unitFit halfCdf id [some (1 : ℚ)] 0 =
      .ok [.val (1 / 2)] := by
  norm_num [calculate_spei_custom, speiSeries, speiEntry, rollingSum, rollingEntry,
    pearson3Cdf, normPpf, halfCdf, unitFit, List.range_succ]

/-- Claim C5 (amended): the cumulative probability is passed to the
inverse-normal transform without clamping, so a probability of exactly 0 or 1
at an eligible position yields negative respectively positive infinity in the
output at that position. -/
theorem spei_saturation_amended {P : Type} (fit : List ℚ → P)
    (cdf : ℚ → P → EFloat) (ppfI : ℚ → ℚ) (wb : List (Option ℚ))
    (timescale : ℤ) (hT : 1 ≤ timescale) {i : ℕ} (hi : i < wb.length)
    (hel : timescale - 1 ≤ (i : ℤ)) :
    (pearson3Cdf cdf ((rollingSum wb timescale.toNat).getD i none)
        (fit (((rollingSum wb timescale.toNat).take (i + 1)).reduceOption)) = .val 0 →
      ∃ l, calculate_spei_custom fit cdf ppfI wb timescale = .ok l ∧
        l.getD i .nan = .negInf) ∧
    (pearson3Cdf cdf ((rollingSum wb timescale.toNat).getD i none)
        (fit (((rollingSum wb timescale.toNat).take (i + 1)).reduceOption)) = .val 1 →
      ∃ l, calculate_spei_custom fit cdf ppfI wb timescale = .ok l ∧
        l.getD i .nan = .posInf) := by
  constructor <;> intro hcdf <;>
    refine ⟨speiSeries fit cdf ppfI wb timescale,
      by rw [calculate_spei_custom, if_neg (by omega)], ?_⟩ <;>
    rw [speiSeries_getD fit cdf ppfI wb timescale hi, speiEntry,
      if_neg (not_lt.mpr hel)] <;>
    · show normPpf ppfI (pearson3Cdf cdf ((rollingSum wb timescale.toNat).getD i none)
        (fit (((rollingSum wb timescale.toNat).take (i + 1)).reduceOption))) = _
      rw [hcdf]
      norm_num [normPpf]

/-- Witness for the amended C5 with a cdf stand-in that returns probability 0:
the output at the eligible position is negative infinity. -/
theorem spei_saturation_amended_witness :
    ∃ l, calculate_spei_custom unitFit zeroCdf id [some (1 : ℚ)] 1 = .ok l ∧
      l.getD 0 .nan = .negInf :=
  (spei_saturation_amended unitFit zeroCdf id [some 1] 1 (by norm_num)
    (by norm_num) (by norm_num)).1
    (by norm_num [pearson3Cdf, rollingSum, rollingEntry, zeroCdf, List.range_succ])

/-- Counterexample to C5 as stated: with a fitted cdf that produces
probability exactly 0 at the (eligible) position, the output contains negative
infinity — the probability is not clamped before the inverse-normal
transform. -/
theorem spei_no_clamp_counterexample :
    zeroCdf 1 () = .val 0 ∧
    calculate_spei_custom unitFit zeroCdf id [some (1 : ℚ)] 1 = .ok [.negInf] := by
  constructor
  · rfl
  · norm_num [calculate_spei_custom, speiSeries, speiEntry, rollingSum, rollingEntry,
      pearson3Cdf, normPpf, zeroCdf, unitFit, List.range_succ]

/-- Claim C4: when the distribution fit fails numerically at a position (the
fitted cdf evaluates to NaN there, as scipy produces on a degenerate sample),
the call still succeeds with a full-length series, the value at that position
is NaN (absent, not an infinity), and every other position is computed by the
usual per-position formula, unaffected by the failure. -/
theorem spei_fit_failure_local {P : Type} (fit : List ℚ → P)
    (cdf : ℚ → P → EFloat) (ppfI : ℚ → ℚ) (wb : List (Option ℚ))
    (timescale : ℤ) (hT : 1 ≤ timescale) {i : ℕ} (hi : i < wb.length)
    (hel : timescale - 1 ≤ (i : ℤ))
    (hfail : pearson3Cdf cdf ((rollingSum wb timescale.toNat).getD i none)
        (fit (((rollingSum wb timescale.toNat).take (i + 1)).reduceOption)) = .nan) :
    ∃ l, calculate_spei_custom fit cdf ppfI wb timescale = .ok l ∧
      l.length = wb.length ∧
      l.getD i .nan = .nan ∧
      l.getD i .nan ≠ .posInf ∧ l.getD i .nan ≠ .negInf ∧
      (∀ j : ℕ, j < wb.length → j ≠ i →
        l.getD j .nan = speiEntry fit cdf ppfI wb timescale j) := by
  have hnan : (speiSeries fit cdf ppfI wb timescale).getD i .nan = .nan := by
    rw [speiSeries_getD fit cdf ppfI wb timescale hi, speiEntry,
      if_neg (not_lt.mpr hel)]
    show normPpf ppfI (pearson3Cdf cdf ((rollingSum wb timescale.toNat).getD i none)
      (fit (((rollingSum wb timescale.toNat).take (i + 1)).reduceOption))) = _
    rw [hfail]
    rfl
  refine ⟨speiSeries fit cdf ppfI wb timescale,
    by rw [calculate_spei_custom, if_neg (by omega)],
    length_speiSeries fit cdf ppfI wb timescale, hnan,
    by rw [hnan]; exact fun h => EFloat.noConfusion h,
    by rw [hnan]; exact fun h => EFloat.noConfusion h,
    fun j hj _ => speiSeries_getD fit cdf ppfI wb timescale hj⟩

/-- Witness for C4 with a cdf stand-in that always fails numerically. -/
theorem spei_fit_failure_local_witness :
    ∃ l, calculate_spei_custom unitFit nanCdf id [some (1 : ℚ), some 2] 1 = .ok l ∧
      l.length = [some (1 : ℚ), some 2].length ∧
      l.getD 0 .nan = .nan ∧
      l.getD 0 .nan ≠ .posInf ∧ l.getD 0 .nan ≠ .negInf ∧
      (∀ j : ℕ, j < [some (1 : ℚ), some 2].length → j ≠ 0 →
        l.getD j .nan = speiEntry unitFit nanCdf id [some (1 : ℚ), some 2] 1 j) :=
  spei_fit_failure_local unitFit nanCdf id [some 1, some 2] 1 (by norm_num)
    (by norm_num) (by norm_num)
    (by norm_num [pearson3Cdf, rollingSum, rollingEntry, nanCdf, List.range_succ])

/-! Exception-aware refinement of the standardizer.  scipy `pearson3.fit`
raises a ValueError when invoked on an empty array (the generic fit start
evaluates `np.min` of a zero-size array), and the loop of
`calculate_spei_custom` has no handler, so the exception propagates out of
the whole call.  The definitions below keep that error path. -/

/-- scipy `pearson3.fit`: on an empty sample the generic fit-start code takes
`np.min` of a zero-size array and raises a ValueError that aborts the caller;
on a non-empty sample it returns the estimated parameters, numerically
abstracted by the `fit` parameter. -/
def pearson3Fit {P : Type} (fit : List ℚ → P) (sample : List ℚ) :
    Except String P :=
  if sample.isEmpty then
    .error "zero-size array to reduction operation minimum which has no identity"
  else .ok (fit sample)

/-- The loop body of `calculate_spei_custom` at position `i` with the
`pearson3.fit` exception path kept: an empty `dropna` sample makes the fit
raise, and otherwise the position evaluates as in `speiEntry`. -/
def speiEntryExc {P : Type} (fit : List ℚ → P) (cdf : ℚ → P → EFloat)
    (ppfI : ℚ → ℚ) (wb : List (Option ℚ)) (timescale : ℤ) (i : ℕ) :
    Except String EFloat :=
  if (i : ℤ) < timescale - 1 then .ok .nan
  else
    let rolling := rollingSum wb timescale.toNat
    let sample := (rolling.take (i + 1)).reduceOption
    (pearson3Fit fit sample).map (fun params =>
      normPpf ppfI (pearson3Cdf cdf (rolling.getD i none) params))

/-- The loop of `calculate_spei_custom` over the positions, aborting at the
first position whose fit raises (a Python for-loop has no handler here, so
the first exception escapes the call). -/
def speiLoop {P : Type} (fit : List ℚ → P) (cdf : ℚ → P → EFloat)
    (ppfI : ℚ → ℚ) (wb : List (Option ℚ)) (timescale : ℤ) :
    List ℕ → Except String (List EFloat)
  | [] => .ok []
  | i :: rest =>
      match speiEntryExc fit cdf ppfI wb timescale i with
      | .error e => .error e
      | .ok v =>
          match speiLoop fit cdf ppfI wb timescale rest with
          | .error e => .error e
          | .ok vs => .ok (v :: vs)

/-- Refinement of `calculate_spei_custom` keeping the `pearson3.fit`
exception path alongside the parameter validation of the rolling window. -/
def calculate_spei_custom_exc {P : Type} (fit : List ℚ → P)
    (cdf : ℚ → P → EFloat) (ppfI : ℚ → ℚ) (wb : List (Option ℚ))
    (timescale : ℤ) : Except String (List EFloat) :=
  if timescale < 0 then .error "min_periods must be >= 0"
  else speiLoop fit cdf ppfI wb timescale (List.range wb.length)

/-- With fewer than `T` defined entries in the whole series, every prefix of
the rolling-sum series reduces to the empty sample. -/
lemma sample_empty_of_few {wb : List (Option ℚ)} {T : ℕ}
    (hdef : wb.reduceOption.length < T) (m : ℕ) :
    (((rollingSum wb T).take m).reduceOption).isEmpty = true := by
  have h : ((rollingSum wb T).take m).reduceOption = [] := by
    apply reduceOption_eq_nil
    intro x hx
    have hx2 : x ∈ rollingSum wb T := List.mem_of_mem_take hx
    obtain ⟨j, hj, hfj⟩ := List.mem_map.mp hx2
    rw [← hfj]
    exact rollingEntry_none_of_few hdef j
  rw [h]
  rfl

lemma speiLoop_all_nan {P : Type} (fit : List ℚ → P) (cdf : ℚ → P → EFloat)
    (ppfI : ℚ → ℚ) (wb : List (Option ℚ)) (timescale : ℤ) :
    ∀ l : List ℕ,
      (∀ i ∈ l, speiEntryExc fit cdf ppfI wb timescale i = .ok .nan) →
      speiLoop fit cdf ppfI wb timescale l = .ok (List.replicate l.length .nan) := by
  intro l
  induction l with
  | nil =>
      intro _
      rfl
  | cons j rest ih =>
      intro h
      rw [speiLoop, h j (List.mem_cons_self _ _),
        ih (fun i hi => h i (List.mem_cons_of_mem _ hi))]
      rfl

lemma speiLoop_error {P : Type} (fit : List ℚ → P) (cdf : ℚ → P → EFloat)
    (ppfI : ℚ → ℚ) (wb : List (Option ℚ)) (timescale : ℤ) (e : String) :
    ∀ (l1 : List ℕ) (i : ℕ) (l2 : List ℕ),
      (∀ j ∈ l1, speiEntryExc fit cdf ppfI wb timescale j = .ok .nan) →
      speiEntryExc fit cdf ppfI wb timescale i = .error e →
      speiLoop fit cdf ppfI wb timescale (l1 ++ i :: l2) = .error e := by
  intro l1
  induction l1 with
  | nil =>
      intro i l2 _ hi
      rw [List.nil_append, speiLoop, hi]
  | cons j rest ih =>
      intro i l2 h1 hi
      rw [List.cons_append, speiLoop, h1 j (List.mem_cons_self _ _),
        ih i l2 (fun x hx => h1 x (List.mem_cons_of_mem _ hx)) hi]

/-- A position whose eligibility test fails, or whose expanding sample is
non-empty, evaluates in the exception-aware loop to the value of the total
model. -/
lemma speiEntryExc_ok {P : Type} (fit : List ℚ → P) (cdf : ℚ → P → EFloat)
    (ppfI : ℚ → ℚ) (wb : List (Option ℚ)) (timescale : ℤ) (i : ℕ)
    (hne : (i : ℤ) < timescale - 1 ∨
      (((rollingSum wb timescale.toNat).take (i + 1)).reduceOption).isEmpty = false) :
    speiEntryExc fit cdf ppfI wb timescale i =
      .ok (speiEntry fit cdf ppfI wb timescale i) := by
  by_cases hel : (i : ℤ) < timescale - 1
  · rw [speiEntryExc, if_pos hel, speiEntry, if_pos hel]
  · have hemp : (((rollingSum wb timescale.toNat).take
        (i + 1)).reduceOption).isEmpty = false := by
      cases hne with
      | inl h => exact absurd h hel
      | inr h => exact h
    rw [speiEntryExc, if_neg hel, speiEntry, if_neg hel]
    show (pearson3Fit fit
        (((rollingSum wb timescale.toNat).take (i + 1)).reduceOption)).map
        (fun params => normPpf ppfI (pearson3Cdf cdf
          ((rollingSum wb timescale.toNat).getD i none) params)) =
      .ok (normPpf ppfI (pearson3Cdf cdf
        ((rollingSum wb timescale.toNat).getD i none)
        (fit (((rollingSum wb timescale.toNat).take (i + 1)).reduceOption))))
    rw [pearson3Fit, if_neg (by simp [hemp])]
    rfl

lemma speiLoop_map {P : Type} (fit : List ℚ → P) (cdf : ℚ → P → EFloat)
    (ppfI : ℚ → ℚ) (wb : List (Option ℚ)) (timescale : ℤ) :
    ∀ l : List ℕ,
      (∀ i ∈ l, speiEntryExc fit cdf ppfI wb timescale i =
        .ok (speiEntry fit cdf ppfI wb timescale i)) →
      speiLoop fit cdf ppfI wb timescale l =
        .ok (l.map (speiEntry fit cdf ppfI wb timescale)) := by
  intro l
  induction l with
  | nil =>
      intro _
      rfl
  | cons j rest ih =>
      intro h
      rw [speiLoop, h j (List.mem_cons_self _ _),
        ih (fun i hi => h i (List.mem_cons_of_mem _ hi))]
      rfl

/-- On every input where no eligible position has an empty expanding sample,
the exception-aware embedding agrees with the total one, so the theorems
stated against `calculate_spei_custom` describe the non-crashing runs of the
program exactly. -/
lemma calculate_spei_custom_exc_eq {P : Type} (fit : List ℚ → P)
    (cdf : ℚ → P → EFloat) (ppfI : ℚ → ℚ) (wb : List (Option ℚ))
    (timescale : ℤ)
    (hne : ∀ i : ℕ, i < wb.length → timescale - 1 ≤ (i : ℤ) →
      (((rollingSum wb timescale.toNat).take (i + 1)).reduceOption).isEmpty = false) :
    calculate_spei_custom_exc fit cdf ppfI wb timescale =
      calculate_spei_custom fit cdf ppfI wb timescale := by
  by_cases hneg : timescale < 0
  · rw [calculate_spei_custom_exc, if_pos hneg, calculate_spei_custom, if_pos hneg]
  · rw [calculate_spei_custom_exc, if_neg hneg, calculate_spei_custom, if_neg hneg,
      speiLoop_map fit cdf ppfI wb timescale (List.range wb.length) ?h]
    case h =>
      intro i hi
      apply speiEntryExc_ok
      by_cases hel : (i : ℤ) < timescale - 1
      · exact Or.inl hel
      · exact Or.inr (hne i (List.mem_range.mp hi) (not_lt.mp hel))
    rfl

/-- Claim C9 (amended): with a positive timescale and fewer than `timescale`
defined entries overall, a series shorter than `timescale` (so that no
eligible position exists) yields a successful call whose output is absent at
every position, while a series of length at least `timescale` reaches an
eligible position whose expanding `dropna` sample is empty, so the fit raises
and the whole call fails with the scipy zero-size-array error instead of
returning a series. -/
theorem spei_insufficient_data_amended {P : Type} (fit : List ℚ → P)
    (cdf : ℚ → P → EFloat) (ppfI : ℚ → ℚ) (wb : List (Option ℚ))
    (timescale : ℤ) (hT : 1 ≤ timescale)
    (hdef : wb.reduceOption.length < timescale.toNat) :
    (wb.length < timescale.toNat →
      calculate_spei_custom_exc fit cdf ppfI wb timescale =
        .ok (List.replicate wb.length .nan)) ∧
    (timescale.toNat ≤ wb.length →
      calculate_spei_custom_exc fit cdf ppfI wb timescale =
        .error "zero-size array to reduction operation minimum which has no identity") := by
  constructor
  · intro hlen
    rw [calculate_spei_custom_exc, if_neg (by omega),
      speiLoop_all_nan fit cdf ppfI wb timescale (List.range wb.length) ?h,
      List.length_range]
    case h =>
      intro i hi
      have hilt := List.mem_range.mp hi
      rw [speiEntryExc, if_pos (by omega)]
  · intro hlen
    rw [calculate_spei_custom_exc, if_neg (by omega)]
    have herr : speiEntryExc fit cdf ppfI wb timescale (timescale.toNat - 1) =
        .error "zero-size array to reduction operation minimum which has no identity" := by
      rw [speiEntryExc, if_neg (by omega)]
      show (pearson3Fit fit
          (((rollingSum wb timescale.toNat).take
            (timescale.toNat - 1 + 1)).reduceOption)).map
          (fun params => normPpf ppfI (pearson3Cdf cdf
            ((rollingSum wb timescale.toNat).getD (timescale.toNat - 1) none)
            params)) = _
      rw [pearson3Fit,
        if_pos (sample_empty_of_few hdef (timescale.toNat - 1 + 1))]
      rfl
    have hsplit : wb.length =
        (timescale.toNat - 1 + 1) + (wb.length - (timescale.toNat - 1 + 1)) := by
      omega
    rw [hsplit, List.range_add, List.range_succ, List.append_assoc,
      List.singleton_append]
    apply speiLoop_error fit cdf ppfI wb timescale _
      (List.range (timescale.toNat - 1)) (timescale.toNat - 1) _ ?hpre herr
    case hpre =>
      intro j hj
      have hjlt := List.mem_range.mp hj
      rw [speiEntryExc, if_pos (by omega)]

/-- Witness for the amended C9: the two-entry series with a single defined
value at timescale 2 reaches the eligible position 1 with an empty sample and
the call fails with the scipy error. -/
theorem spei_insufficient_data_amended_witness :
    (([none, some (1 : ℚ)] : List (Option ℚ)).length < (2 : ℤ).toNat →
      calculate_spei_custom_exc unitFit halfCdf id [none, some (1 : ℚ)] 2 =
        .ok (List.replicate ([none, some (1 : ℚ)] : List (Option ℚ)).length .nan)) ∧
    ((2 : ℤ).toNat ≤ ([none, some (1 : ℚ)] : List (Option ℚ)).length →
      calculate_spei_custom_exc unitFit halfCdf id [none, some (1 : ℚ)] 2 =
        .error "zero-size array to reduction operation minimum which has no identity") :=
  spei_insufficient_data_amended unitFit halfCdf id [none, some 1] 2
    (by norm_num)
    (by simp [List.reduceOption_cons_of_none, List.reduceOption_cons_of_some])

/-- Counterexample to C9 as stated: the series with entries NaN and 1 holds
fewer than 2 defined values, yet with timescale 2 the call does not succeed
with an all-absent series — the expanding sample at the first eligible
position is empty, the fit raises, and the whole call fails. -/
theorem spei_insufficient_data_counterexample :
    calculate_spei_custom_exc unitFit halfCdf id [none, some (1 : ℚ)] 2 =
      .error "zero-size array to reduction operation minimum which has no identity" := by
  norm_num [calculate_spei_custom_exc, speiLoop, speiEntryExc, pearson3Fit,
    rollingSum, rollingEntry, pearson3Cdf, normPpf, halfCdf, unitFit, Except.map,
    List.range_succ]

/-! Causality and leading-absent counting -/

lemma rollingEntry_take (wb : List (Option ℚ)) (T : ℕ) (k : ℕ) {j : ℕ}
    (hj : j ≤ k) : rollingEntry (wb.take (k + 1)) T j = rollingEntry wb T j := by
  rw [rollingEntry, rollingEntry, List.take_take]
  have hm : (j + 1) ⊓ (k + 1) = j + 1 := by omega
  rw [hm]

lemma rollingSum_take (wb : List (Option ℚ)) (T k : ℕ) :
    rollingSum (wb.take (k + 1)) T = (rollingSum wb T).take (k + 1) := by
  rw [rollingSum, rollingSum, ← List.map_take, List.take_range, List.length_take]
  apply List.map_congr_left
  intro j hj
  have hjk : j ≤ k := by
    have := List.mem_range.mp hj
    omega
  exact rollingEntry_take wb T k hjk

lemma getD_take {α : Type} (l : List α) (d : α) {k i : ℕ} (hik : i < k) :
    (l.take k).getD i d = l.getD i d := by
  rw [List.getD_eq_getElem?_getD, List.getD_eq_getElem?_getD, List.getElem?_take,
    if_pos hik]

lemma speiEntry_take {P : Type} (fit : List ℚ → P) (cdf : ℚ → P → EFloat)
    (ppfI : ℚ → ℚ) (wb : List (Option ℚ)) (timescale : ℤ) (k : ℕ) {i : ℕ}
    (hik : i ≤ k) :
    speiEntry fit cdf ppfI (wb.take (k + 1)) timescale i =
      speiEntry fit cdf ppfI wb timescale i := by
  by_cases hel : (i : ℤ) < timescale - 1
  · rw [speiEntry, if_pos hel, speiEntry, if_pos hel]
  · rw [speiEntry, if_neg hel, speiEntry, if_neg hel]
    show normPpf ppfI (pearson3Cdf cdf
        ((rollingSum (wb.take (k + 1)) timescale.toNat).getD i none)
        (fit (((rollingSum (wb.take (k + 1)) timescale.toNat).take
          (i + 1)).reduceOption))) =
      normPpf ppfI (pearson3Cdf cdf ((rollingSum wb timescale.toNat).getD i none)
        (fit (((rollingSum wb timescale.toNat).take (i + 1)).reduceOption)))
    rw [rollingSum_take, List.take_take]
    have hm : (i + 1) ⊓ (k + 1) = i + 1 := by omega
    rw [hm, getD_take _ _ (by omega : i < k + 1)]

/-- Claim C7: the engine is strictly causal — truncating the input after
position `k` leaves every output value at a position at or before `k`
unchanged. -/
theorem spei_causality {P : Type} (fit : List ℚ → P) (cdf : ℚ → P → EFloat)
    (ppfI : ℚ → ℚ) (wb : List (Option ℚ)) (timescale : ℤ) (hT : 1 ≤ timescale)
    (k i : ℕ) (hik : i ≤ k) :
    ∃ l l2,
      calculate_spei_custom fit cdf ppfI (wb.take (k + 1)) timescale = .ok l ∧
      calculate_spei_custom fit cdf ppfI wb timescale = .ok l2 ∧
      l.getD i .nan = l2.getD i .nan := by
  refine ⟨speiSeries fit cdf ppfI (wb.take (k + 1)) timescale,
    speiSeries fit cdf ppfI wb timescale,
    by rw [calculate_spei_custom, if_neg (by omega)],
    by rw [calculate_spei_custom, if_neg (by omega)], ?_⟩
  by_cases hlen : i < wb.length
  · have hlen2 : i < (wb.take (k + 1)).length := by
      rw [List.length_take]
      omega
    rw [speiSeries_getD fit cdf ppfI (wb.take (k + 1)) timescale hlen2,
      speiSeries_getD fit cdf ppfI wb timescale hlen,
      speiEntry_take fit cdf ppfI wb timescale k hik]
  · have h1 : (speiSeries fit cdf ppfI (wb.take (k + 1)) timescale).length ≤ i := by
      rw [length_speiSeries, List.length_take]
      omega
    have h2 : (speiSeries fit cdf ppfI wb timescale).length ≤ i := by
      rw [length_speiSeries]
      omega
    rw [List.getD_eq_getElem?_getD, List.getD_eq_getElem?_getD,
      List.getElem?_eq_none h1, List.getElem?_eq_none h2]

/-- Witness for C7: truncating a three-entry series after position 1 does not
change the output at position 1. -/
theorem spei_causality_witness :
    ∃ l l2,
      calculate_spei_custom unitFit halfCdf id
        ([some (1 : ℚ), some 2, some 3].take (1 + 1)) 1 = .ok l ∧
      calculate_spei_custom unitFit halfCdf id [some (1 : ℚ), some 2, some 3] 1 =
        .ok l2 ∧
      l.getD 1 .nan = l2.getD 1 .nan :=
  spei_causality unitFit halfCdf id [some 1, some 2, some 3] 1 (by norm_num) 1 1
    (by norm_num)

/-- Number of leading absent (NaN) entries of an output series. -/
def leadingNanCount : List EFloat → ℕ
  | [] => 0
  | x :: xs => if x = .nan then leadingNanCount xs + 1 else 0

lemma leadingNanCount_eq : ∀ {l : List EFloat} {m : ℕ}, m < l.length →
    (∀ j, j < m → l.getD j .nan = .nan) → l.getD m .nan ≠ .nan →
    leadingNanCount l = m := by
  intro l
  induction l with
  | nil =>
      intro m hm _ _
      simp at hm
  | cons x xs ih =>
      intro m hm hpre hat
      cases m with
      | zero =>
          rw [List.getD_cons_zero] at hat
          rw [leadingNanCount, if_neg hat]
      | succ m =>
          have hx : x = EFloat.nan := by
            have h0 := hpre 0 (Nat.succ_pos m)
            rwa [List.getD_cons_zero] at h0
          rw [leadingNanCount, if_pos hx]
          congr 1
          apply ih
          · simpa using hm
          · intro j hj
            have hsj := hpre (j + 1) (by omega)
            rwa [List.getD_cons_succ] at hsj
          · rwa [List.getD_cons_succ] at hat

/-- Under a fully defined input of sufficient length and a fitted cdf that
produces interior probabilities, exactly the first `timescale - 1` positions
of the output are absent. -/
lemma leadingNanCount_spei {P : Type} (fit : List ℚ → P) (cdf : ℚ → P → EFloat)
    (ppfI : ℚ → ℚ) (wb : List (Option ℚ)) (timescale : ℤ) (hT : 1 ≤ timescale)
    (hlen : timescale.toNat ≤ wb.length) (hdef : ∀ x ∈ wb, x.isSome = true)
    (hcdf : ∀ q p, ∃ r, cdf q p = .val r ∧ 0 < r ∧ r < 1) :
    leadingNanCount (speiSeries fit cdf ppfI wb timescale) =
      timescale.toNat - 1 := by
  have hm : timescale.toNat - 1 < wb.length := by omega
  apply leadingNanCount_eq
  · rw [length_speiSeries]
    exact hm
  · intro j hj
    have hjlt : j < wb.length := by omega
    rw [speiSeries_getD fit cdf ppfI wb timescale hjlt, speiEntry,
      if_pos (by omega)]
  · rw [speiSeries_getD fit cdf ppfI wb timescale hm, speiEntry,
      if_neg (by omega)]
    have hsome : ((rollingSum wb timescale.toNat).getD (timescale.toNat - 1)
        none).isSome = true := by
      rw [rollingSum_getD wb timescale.toNat hm]
      apply (rollingEntry_isSome_iff hm).mpr
      refine ⟨by omega, ?_⟩
      intro j hj1 hj2
      have hjlt : j < wb.length := by omega
      rw [List.getD_eq_getElem wb none hjlt]
      exact hdef _ (List.getElem_mem hjlt)
    obtain ⟨v, hv⟩ := Option.isSome_iff_exists.mp hsome
    obtain ⟨r, hr, hr0, hr1⟩ := hcdf v
      (fit (((rollingSum wb timescale.toNat).take
        (timescale.toNat - 1 + 1)).reduceOption))
    show normPpf ppfI (pearson3Cdf cdf
      ((rollingSum wb timescale.toNat).getD (timescale.toNat - 1) none)
      (fit (((rollingSum wb timescale.toNat).take
        (timescale.toNat - 1 + 1)).reduceOption))) ≠ .nan
    rw [hv]
    show normPpf ppfI (cdf v
      (fit (((rollingSum wb timescale.toNat).take
        (timescale.toNat - 1 + 1)).reduceOption))) ≠ .nan
    rw [hr, normPpf, if_neg (by linarith), if_neg hr0.ne', if_pos hr1]
    exact fun h => EFloat.noConfusion h

/-- Claim C6: the output has exactly the length and alignment of the input,
its first `timescale - 1` positions are absent; and on a fully defined input
of length at least 12 whose fitted cdf produces interior probabilities, the
outputs at timescales 3, 6 and 12 have exactly 2, 5 and 11 leading absent
values respectively. -/
theorem spei_alignment_and_leading {P : Type} (fit : List ℚ → P)
    (cdf : ℚ → P → EFloat) (ppfI : ℚ → ℚ) (wb : List (Option ℚ))
    (timescale : ℤ) (hT : 1 ≤ timescale) :
    (∃ l, calculate_spei_custom fit cdf ppfI wb timescale = .ok l ∧
      l.length = wb.length ∧
      ∀ i : ℕ, (i : ℤ) < timescale - 1 → l.getD i .nan = .nan) ∧
    ((∀ x ∈ wb, x.isSome = true) → 12 ≤ wb.length →
      (∀ q p, ∃ r, cdf q p = .val r ∧ 0 < r ∧ r < 1) →
      ∀ l3 l6 l12,
        calculate_spei_custom fit cdf ppfI wb 3 = .ok l3 →
        calculate_spei_custom fit cdf ppfI wb 6 = .ok l6 →
        calculate_spei_custom fit cdf ppfI wb 12 = .ok l12 →
        leadingNanCount l3 = 2 ∧ leadingNanCount l6 = 5 ∧
          leadingNanCount l12 = 11) := by
  constructor
  · refine ⟨speiSeries fit cdf ppfI wb timescale,
      by rw [calculate_spei_custom, if_neg (by omega)],
      length_speiSeries fit cdf ppfI wb timescale, ?_⟩
    intro i hlt
    by_cases hi : i < wb.length
    · rw [speiSeries_getD fit cdf ppfI wb timescale hi, speiEntry, if_pos hlt]
    · rw [List.getD_eq_getElem?_getD, List.getElem?_eq_none]
      · rfl
      · rw [length_speiSeries]
        omega
  · intro hdef hlen hcdf l3 l6 l12 h3 h6 h12
    have e3 : speiSeries fit cdf ppfI wb 3 = l3 := by
      rw [calculate_spei_custom, if_neg (by norm_num)] at h3
      exact Except.ok.inj h3
    have e6 : speiSeries fit cdf ppfI wb 6 = l6 := by
      rw [calculate_spei_custom, if_neg (by norm_num)] at h6
      exact Except.ok.inj h6
    have e12 : speiSeries fit cdf ppfI wb 12 = l12 := by
      rw [calculate_spei_custom, if_neg (by norm_num)] at h12
      exact Except.ok.inj h12
    refine ⟨?_, ?_, ?_⟩
    · rw [← e3, leadingNanCount_spei fit cdf ppfI wb 3 (by norm_num)
        (by omega) hdef hcdf]
      rfl
    · rw [← e6, leadingNanCount_spei fit cdf ppfI wb 6 (by norm_num)
        (by omega) hdef hcdf]
      rfl
    · rw [← e12, leadingNanCount_spei fit cdf ppfI wb 12 (by norm_num)
        (by omega) hdef hcdf]
      rfl

/-- Witness for C6 on a fully defined constant series of twelve entries with
the interior-probability cdf stand-in. -/
theorem spei_alignment_and_leading_witness :
    (∃ l, calculate_spei_custom unitFit halfCdf id
        (List.replicate 12 (some (1 : ℚ))) 3 = .ok l ∧
      l.length = (List.replicate 12 (some (1 : ℚ))).length ∧
      ∀ i : ℕ, (i : ℤ) < 3 - 1 → l.getD i .nan = .nan) ∧
    ((∀ x ∈ List.replicate 12 (some (1 : ℚ)), x.isSome = true) →
      12 ≤ (List.replicate 12 (some (1 : ℚ))).length →
      (∀ (q : ℚ) (p : Unit), ∃ r, halfCdf q p = .val r ∧ 0 < r ∧ r < 1) →
      ∀ l3 l6 l12,
        calculate_spei_custom unitFit halfCdf id
          (List.replicate 12 (some (1 : ℚ))) 3 = .ok l3 →
        calculate_spei_custom unitFit halfCdf id
          (List.replicate 12 (some (1 : ℚ))) 6 = .ok l6 →
        calculate_spei_custom unitFit halfCdf id
          (List.replicate 12 (some (1 : ℚ))) 12 = .ok l12 →
        leadingNanCount l3 = 2 ∧ leadingNanCount l6 = 5 ∧
          leadingNanCount l12 = 11) :=
  spei_alignment_and_leading unitFit halfCdf id
    (List.replicate 12 (some 1)) 3 (by norm_num)

end ClimateIndices
